import Mathlib

/-!
# Telemetry handler of the MPC controller (`src/main.cpp`)

A shallow embedding of the `onMessage` telemetry branch of `main.cpp`.

* `double` is embedded as an arbitrary field `α` (exact arithmetic, no rounding,
  no NaN/Inf); the theorems instantiate `α` with `ℝ` and the `<math.h>`
  functions with `Real.cos`, `Real.sin`, `Real.arctan`, `Real.pi`.
* `std::vector<double>` / `Eigen::VectorXd` are embedded as `List α`;
  `emplace_back` / `push_back` is `xs ++ [a]`; an indexed read `xs[i]` is
  `xs[i]?`, so a read past the end (undefined in C++) makes the embedded
  computation return `none`.
* `Lf`, `polyfit`, `polyeval` (`helpers.h`) and `MPC::Solve` (`MPC.h`) are not
  part of `main.cpp`; they are parameters of the embedding.
-/

namespace CarND

/-! ## Data -/

/-- The `<math.h>` primitives used by `main.cpp`: `cos`, `sin`, `atan`, `M_PI`. -/
structure CMath (α : Type) where
  cos : α → α
  sin : α → α
  atan : α → α
  pi : α

/-- What `main.cpp` takes from `helpers.h` and `MPC.h`: the constant `Lf`, the
functions `polyfit`, `polyeval` and the method `MPC::Solve`. -/
structure Collab (α : Type) where
  Lf : α
  polyfit : List α → List α → Nat → List α
  polyeval : List α → α → α
  Solve : List α → List α → List α

/-- The typed fields the handler reads from `j[1]` (lines 51-58). -/
structure Telemetry (α : Type) where
  ptsx : List α
  ptsy : List α
  px : α
  py : α
  psi : α
  v : α
  steering_angle : α
  throttle : α

/-- The six entries of `Eigen::VectorXd state(6)`, `state(0)` .. `state(5)`, in
the order `state << 0, 0, 0, v, cte, epsi` fills them. -/
structure State (α : Type) where
  x : α
  y : α
  psi : α
  v : α
  cte : α
  epsi : α

/-- The fields written to `msgJson` (lines 97-132). -/
structure Message (α : Type) where
  steering_angle : α
  throttle : α
  mpc_x : List α
  mpc_y : List α
  next_x : List α
  next_y : List α

/-- `State` as the vector handed to `mpc.Solve`. -/
def State.toList {α : Type} (s : State α) : List α :=
  [s.x, s.y, s.psi, s.v, s.cte, s.epsi]

/-! ## Constants and helpers (lines 19-25) -/

/-- `double deg2rad(double x) { return x * pi() / 180; }` -/
def deg2rad {α : Type} [Field α] (m : CMath α) (x : α) : α :=
  x * m.pi / 180

/-- `double rad2deg(double x) { return x * 180 / pi(); }` -/
def rad2deg {α : Type} [Field α] (m : CMath α) (x : α) : α :=
  x * 180 / m.pi

/-- `const int latency_ms = 100;` -/
def latency_ms : Int := 100

/-- `const double latency_s = 0.1;` -/
def latency_s {α : Type} [Field α] : α := 0.1

/-! ## Latency compensation (lines 75-86) -/

/-- Lines 75-86: `cte`, `epsi`, the initial `state << 0, 0, 0, v, cte, epsi`
and the six in-place updates, in source order.  `s0` .. `s5` stand for
`state(0)` .. `state(5)`; each `let` shadows the entry it updates, so later
lines see earlier updates exactly as the C++ does.  `c1` is `coeffs[1]`, read
on lines 76 and 86. -/
def latencyState {α : Type} [Field α] (m : CMath α) (Lf : α)
    (polyeval : List α → α → α) (v steering_angle throttle : α)
    (coeffs : List α) : Option (State α) := do
  let cte := polyeval coeffs 0
  let c1 ← coeffs[1]?
  let epsi := -m.atan c1
  let s0 : α := 0
  let s1 : α := 0
  let s2 : α := 0
  let s3 : α := v
  let s4 : α := cte
  let s5 : α := epsi
  let s0 := s0 + v * m.cos s2 * latency_s
  let s1 := s1 + v * m.sin s2 * latency_s
  let s2 := s2 - v * steering_angle * latency_s / Lf
  let s3 := s3 + throttle * latency_s
  let s4 := s4 + v * m.sin s5 * latency_s
  let s5 := s5 - v * m.atan c1 * latency_s / Lf
  pure ⟨s0, s1, s2, s3, s4, s5⟩

/-- The kinematic vehicle model as section 4.1 of the specification words it:
`x' = x + v cos(psi) dt`, `y' = y + v sin(psi) dt`, `psi' = psi - v delta/Lf dt`,
`v' = v + a dt`, `cte' = cte + v sin(epsi) dt`, `epsi' = epsi - v delta/Lf dt`. -/
def kinematicModel_spec {α : Type} [Field α] (m : CMath α) (Lf : α)
    (s : State α) (delta a dt : α) : State α :=
  { x := s.x + s.v * m.cos s.psi * dt
    y := s.y + s.v * m.sin s.psi * dt
    psi := s.psi - s.v * delta / Lf * dt
    v := s.v + a * dt
    cte := s.cte + s.v * m.sin s.epsi * dt
    epsi := s.epsi - s.v * delta / Lf * dt }

/-! ## Waypoint transform (lines 60-69) -/

/-- The loop `for (size_t i = 0; i < ptsx.size(); i++)` of lines 63-69, entered
at index `i` with the two output vectors built so far.  `ptsx[i]` is inside the
loop bound; `ptsy[i]` is not checked by the source, so a missing entry gives
`none`. -/
def wayptsLoop {α : Type} [Field α] (m : CMath α) (ptsx ptsy : List α)
    (px py psi : α) (i : Nat) (waypts_x waypts_y : List α) :
    Option (List α × List α) :=
  if h : i < ptsx.length then
    let dx := ptsx[i] - px
    match ptsy[i]? with
    | some yi =>
      let dy := yi - py
      wayptsLoop m ptsx ptsy px py psi (i + 1)
        (waypts_x ++ [dx * m.cos (-psi) - dy * m.sin (-psi)])
        (waypts_y ++ [dx * m.sin (-psi) + dy * m.cos (-psi)])
    | none => none
  else
    some (waypts_x, waypts_y)
termination_by ptsx.length - i

/-! ## Emitted command (lines 90-98) -/

/-- Lines 90-91: `steer_value = solution[0] / deg2rad(25)` and
`throttle_value = solution[1]`, the pair written to `msgJson`. -/
def steerThrottle {α : Type} [Field α] (m : CMath α) (solution : List α) :
    Option (α × α) := do
  let s0 ← solution[0]?
  let s1 ← solution[1]?
  pure (s0 / deg2rad m 25, s1)

/-! ## Predicted trajectory (lines 103-116) -/

/-- The loop `for (int i = 2; i < solution.size(); i++)` of lines 106-116,
entered at index `i` with the two output vectors built so far.  The counter is
a C `int`; it is embedded as a natural number, which is exact for every vector
of fewer than `2^31` entries. -/
def mpcValsLoop {α : Type} (solution : List α) (i : Nat)
    (mpc_x_vals mpc_y_vals : List α) : List α × List α :=
  if h : i < solution.length then
    if i % 2 = 0 then
      mpcValsLoop solution (i + 1) (mpc_x_vals ++ [solution[i]]) mpc_y_vals
    else
      mpcValsLoop solution (i + 1) mpc_x_vals (mpc_y_vals ++ [solution[i]])
  else
    (mpc_x_vals, mpc_y_vals)
termination_by solution.length - i

/-! ## Reference line (lines 122-129) -/

/-- The loop `for (double i = 0; i < 80; i += 2)` of lines 125-129, entered with
counter `i` and the two output vectors built so far.  It is a total function:
every pass lowers the number of whole steps left below 80. -/
def nextValsLoop {α : Type} [LinearOrderedField α] [FloorRing α]
    (polyeval : List α → α → α) (coeffs : List α) (i : α)
    (next_x_vals next_y_vals : List α) : List α × List α :=
  if i < 80 then
    nextValsLoop polyeval coeffs (i + 2) (next_x_vals ++ [i])
      (next_y_vals ++ [polyeval coeffs i])
  else
    (next_x_vals, next_y_vals)
termination_by Nat.ceil (80 - i)
decreasing_by
  rename_i h
  rw [Nat.lt_ceil]
  rcases le_or_lt (0 : α) (80 - (i + 2)) with h0 | h0
  · have := Nat.ceil_lt_add_one h0
    linarith
  · have hz : Nat.ceil (80 - (i + 2)) = 0 := Nat.ceil_eq_zero.mpr h0.le
    rw [hz]
    simpa using h

/-! ## The telemetry branch (lines 51-132) -/

/-- Lines 90-132, what the handler does with the vector `mpc.Solve` returned:
the command and the two display vectors written to `msgJson`. -/
def respond {α : Type} [LinearOrderedField α] [FloorRing α] (m : CMath α)
    (polyeval : List α → α → α) (coeffs solution : List α) :
    Option (Message α) := do
  let (steer_value, throttle_value) ← steerThrottle m solution
  let (mpc_x_vals, mpc_y_vals) := mpcValsLoop solution 2 [] []
  let (next_x_vals, next_y_vals) := nextValsLoop polyeval coeffs 0 [] []
  pure { steering_angle := steer_value
         throttle := throttle_value
         mpc_x := mpc_x_vals
         mpc_y := mpc_y_vals
         next_x := next_x_vals
         next_y := next_y_vals }

/-- The body of `if (event == "telemetry")` up to the construction of
`msgJson` (lines 51-132): transform, fit, latency compensation, solve, then
`respond`. -/
def onTelemetry {α : Type} [LinearOrderedField α] [FloorRing α] (m : CMath α)
    (c : Collab α) (t : Telemetry α) : Option (Message α) := do
  let (waypts_x, waypts_y) ← wayptsLoop m t.ptsx t.ptsy t.px t.py t.psi 0 [] []
  let coeffs := c.polyfit waypts_x waypts_y 3
  let state ← latencyState m c.Lf c.polyeval t.v t.steering_angle t.throttle coeffs
  let solution := c.Solve state.toList coeffs
  respond m c.polyeval coeffs solution

/-! ## Latency compensation: theorems -/

/-- Closed form of `latencyState` for an arbitrary field and arbitrary
`<math.h>` functions. -/
theorem latencyState_eq {α : Type} [Field α] (m : CMath α) (Lf : α)
    (polyeval : List α → α → α) (v steering_angle throttle : α)
    (coeffs : List α) (h : 1 < coeffs.length) :
    latencyState m Lf polyeval v steering_angle throttle coeffs
      = some { x := 0 + v * m.cos 0 * latency_s
               y := 0 + v * m.sin 0 * latency_s
               psi := 0 - v * steering_angle * latency_s / Lf
               v := v + throttle * latency_s
               cte := polyeval coeffs 0 + v * m.sin (-m.atan coeffs[1]) * latency_s
               epsi := -m.atan coeffs[1] - v * m.atan coeffs[1] * latency_s / Lf } := by
  simp [latencyState, List.getElem?_eq_getElem h]

/-- Supporting fact for C1: over the reals, five of the six components of the
state handed to `mpc.Solve` are those of the section 4.1 model applied once to
`(0, 0, 0, v, polyeval(coeffs, 0), -atan(coeffs[1]))` with `delta =
steering_angle`, `a = throttle`, `dt = latency_s`; the sixth differs from the
model's by `v * (steering_angle - atan(coeffs[1])) * latency_s / Lf`. -/
theorem latencyState_model_five (Lf : ℝ) (polyeval : List ℝ → ℝ → ℝ)
    (v steering_angle throttle : ℝ) (coeffs : List ℝ) (h : 1 < coeffs.length) :
    ∃ s : State ℝ,
      latencyState ⟨Real.cos, Real.sin, Real.arctan, Real.pi⟩ Lf polyeval v
        steering_angle throttle coeffs = some s ∧
      s.x = (kinematicModel_spec ⟨Real.cos, Real.sin, Real.arctan, Real.pi⟩ Lf
        ⟨0, 0, 0, v, polyeval coeffs 0, -Real.arctan coeffs[1]⟩
        steering_angle throttle latency_s).x ∧
      s.y = (kinematicModel_spec ⟨Real.cos, Real.sin, Real.arctan, Real.pi⟩ Lf
        ⟨0, 0, 0, v, polyeval coeffs 0, -Real.arctan coeffs[1]⟩
        steering_angle throttle latency_s).y ∧
      s.psi = (kinematicModel_spec ⟨Real.cos, Real.sin, Real.arctan, Real.pi⟩ Lf
        ⟨0, 0, 0, v, polyeval coeffs 0, -Real.arctan coeffs[1]⟩
        steering_angle throttle latency_s).psi ∧
      s.v = (kinematicModel_spec ⟨Real.cos, Real.sin, Real.arctan, Real.pi⟩ Lf
        ⟨0, 0, 0, v, polyeval coeffs 0, -Real.arctan coeffs[1]⟩
        steering_angle throttle latency_s).v ∧
      s.cte = (kinematicModel_spec ⟨Real.cos, Real.sin, Real.arctan, Real.pi⟩ Lf
        ⟨0, 0, 0, v, polyeval coeffs 0, -Real.arctan coeffs[1]⟩
        steering_angle throttle latency_s).cte ∧
      s.epsi = (kinematicModel_spec ⟨Real.cos, Real.sin, Real.arctan, Real.pi⟩ Lf
        ⟨0, 0, 0, v, polyeval coeffs 0, -Real.arctan coeffs[1]⟩
        steering_angle throttle latency_s).epsi
          + v * (steering_angle - Real.arctan coeffs[1]) * latency_s / Lf := by
  refine ⟨_, latencyState_eq _ Lf polyeval v steering_angle throttle coeffs h, ?_⟩
  refine ⟨?_, ?_, ?_, ?_, ?_, ?_⟩ <;> simp only [kinematicModel_spec] <;> ring

/-- C1 (evaluation at the failing input): with speed `v = 10`, previous
`steering_angle = 0.1`, previous `throttle = 0`, a fitted curve with
`coeffs[1] = 0` and `Lf = 2.67`, the heading-error entry of the state handed to
`mpc.Solve` is `0`, whereas the section 4.1 model applied to the
pre-compensation state with `delta = steering_angle` gives `-(10/267)`; the
handler's state is therefore not the model's. -/
theorem latencyState_epsi_departs_from_model :
    ∃ s : State ℝ,
      latencyState ⟨Real.cos, Real.sin, Real.arctan, Real.pi⟩ 2.67
        (fun _ _ => 0) 10 0.1 0 [0, 0, 0, 0] = some s ∧
      s.epsi = 0 ∧
      (kinematicModel_spec ⟨Real.cos, Real.sin, Real.arctan, Real.pi⟩ 2.67
        ⟨0, 0, 0, 10, 0, -Real.arctan 0⟩ 0.1 0 latency_s).epsi = -(10 / 267) ∧
      s.epsi ≠ (kinematicModel_spec ⟨Real.cos, Real.sin, Real.arctan, Real.pi⟩ 2.67
        ⟨0, 0, 0, 10, 0, -Real.arctan 0⟩ 0.1 0 latency_s).epsi := by
  refine ⟨_, latencyState_eq _ _ _ _ _ _ _ (by decide), ?_, ?_, ?_⟩
  · simp
  · simp only [kinematicModel_spec, latency_s, Real.arctan_zero]
    norm_num
  · simp only [kinematicModel_spec, latency_s, Real.arctan_zero]
    norm_num

/-- C8: with zero previous actuators (`steering_angle = 0`, `throttle = 0`) the
state handed to `mpc.Solve` is the straight-line, constant-speed prediction over
one step of `latency_s`: `x = v * latency_s`, `y = 0`, `psi = 0`, speed `v`. -/
theorem latencyState_zero_actuators (Lf : ℝ) (polyeval : List ℝ → ℝ → ℝ)
    (v : ℝ) (coeffs : List ℝ) (h : 1 < coeffs.length) :
    ∃ s : State ℝ,
      latencyState ⟨Real.cos, Real.sin, Real.arctan, Real.pi⟩ Lf polyeval v 0 0
        coeffs = some s ∧
      s.x = v * latency_s ∧ s.y = 0 ∧ s.psi = 0 ∧ s.v = v := by
  refine ⟨_, latencyState_eq _ Lf polyeval v 0 0 coeffs h, ?_⟩
  simp

/-- Witness for C8: speed 10, `Lf = 2.67`, a cubic with coefficients
`[1, 2, 3, 4]`. -/
theorem latencyState_zero_actuators_witness :
    ∃ s : State ℝ,
      latencyState ⟨Real.cos, Real.sin, Real.arctan, Real.pi⟩ 2.67
        (fun _ _ => 0) 10 0 0 [1, 2, 3, 4] = some s ∧
      s.x = 10 * latency_s ∧ s.y = 0 ∧ s.psi = 0 ∧ s.v = 10 :=
  latencyState_zero_actuators 2.67 (fun _ _ => 0) 10 [1, 2, 3, 4] (by decide)

/-- C10: for `Lf ≠ 0` the heading-error entry of the state handed to
`mpc.Solve` is `-atan(coeffs[1]) * (1 + v * latency_s / Lf)`, and a second run
that differs only in the previous `steering_angle` and `throttle` has the same
heading-error entry. -/
theorem latencyState_epsi_scaled (Lf : ℝ) (polyeval : List ℝ → ℝ → ℝ)
    (v steering_angle throttle steering_angle2 throttle2 : ℝ)
    (coeffs : List ℝ) (hLf : Lf ≠ 0) (h : 1 < coeffs.length) :
    ∃ s s2 : State ℝ,
      latencyState ⟨Real.cos, Real.sin, Real.arctan, Real.pi⟩ Lf polyeval v
        steering_angle throttle coeffs = some s ∧
      latencyState ⟨Real.cos, Real.sin, Real.arctan, Real.pi⟩ Lf polyeval v
        steering_angle2 throttle2 coeffs = some s2 ∧
      s.epsi = -Real.arctan coeffs[1] * (1 + v * latency_s / Lf) ∧
      s2.epsi = s.epsi := by
  refine ⟨_, _, latencyState_eq _ Lf polyeval v steering_angle throttle coeffs h,
    latencyState_eq _ Lf polyeval v steering_angle2 throttle2 coeffs h, ?_, rfl⟩
  field_simp
  ring

/-- Witness for C10: `Lf = 2.67`, speed 10, commands `(0.1, 0.5)` and
`(-0.2, 1)`, coefficients `[1, 2, 3, 4]`. -/
theorem latencyState_epsi_scaled_witness :
    ∃ s s2 : State ℝ,
      latencyState ⟨Real.cos, Real.sin, Real.arctan, Real.pi⟩ 2.67 (fun _ _ => 0)
        10 0.1 0.5 [1, 2, 3, 4] = some s ∧
      latencyState ⟨Real.cos, Real.sin, Real.arctan, Real.pi⟩ 2.67 (fun _ _ => 0)
        10 (-0.2) 1 [1, 2, 3, 4] = some s2 ∧
      s.epsi = -Real.arctan 2 * (1 + 10 * latency_s / 2.67) ∧
      s2.epsi = s.epsi :=
  latencyState_epsi_scaled 2.67 (fun _ _ => 0) 10 0.1 0.5 (-0.2) 1 [1, 2, 3, 4]
    (by norm_num) (by decide)

/-! ## Waypoint transform: theorems -/

/-- Closed form of the waypoint loop entered at index `i`: it appends to each
output vector the image of every remaining waypoint. -/
theorem wayptsLoop_eq {α : Type} [Field α] (m : CMath α) (ptsx ptsy : List α)
    (px py psi : α) (hlen : ptsx.length ≤ ptsy.length) :
    ∀ (d i : Nat) (wx wy : List α), ptsx.length - i = d → i ≤ ptsx.length →
      wayptsLoop m ptsx ptsy px py psi i wx wy
        = some
            (wx ++ List.zipWith
              (fun a b => (a - px) * m.cos (-psi) - (b - py) * m.sin (-psi))
              (ptsx.drop i) (ptsy.drop i),
             wy ++ List.zipWith
              (fun a b => (a - px) * m.sin (-psi) + (b - py) * m.cos (-psi))
              (ptsx.drop i) (ptsy.drop i)) := by
  intro d
  induction d with
  | zero =>
    intro i wx wy hd hi
    have hi2 : ptsx.length ≤ i := by omega
    rw [wayptsLoop]
    simp [Nat.not_lt.mpr hi2, List.drop_eq_nil_of_le hi2]
  | succ d ih =>
    intro i wx wy hd hi
    have hx : i < ptsx.length := by omega
    have hy : i < ptsy.length := by omega
    rw [wayptsLoop]
    simp only [hx, dite_true, List.getElem?_eq_getElem hy]
    rw [ih (i + 1) _ _ (by omega) (by omega)]
    rw [List.drop_eq_getElem_cons hx, List.drop_eq_getElem_cons hy]
    simp only [List.zipWith_cons_cons, List.append_assoc, List.singleton_append]

/-- The waypoint loop run from the start, index by index. -/
theorem wayptsLoop_index {α : Type} [Field α] (m : CMath α) (ptsx ptsy : List α)
    (px py psi : α) (hlen : ptsx.length ≤ ptsy.length) :
    ∃ wx wy : List α,
      wayptsLoop m ptsx ptsy px py psi 0 [] [] = some (wx, wy) ∧
      wx.length = ptsx.length ∧ wy.length = ptsx.length ∧
      ∀ (i : Nat) (hx : i < ptsx.length) (hy : i < ptsy.length),
        wx[i]? = some ((ptsx[i] - px) * m.cos (-psi) - (ptsy[i] - py) * m.sin (-psi)) ∧
        wy[i]? = some ((ptsx[i] - px) * m.sin (-psi) + (ptsy[i] - py) * m.cos (-psi)) := by
  refine ⟨_, _, wayptsLoop_eq m ptsx ptsy px py psi hlen _ 0 [] [] rfl (Nat.zero_le _),
    by simpa using hlen, by simpa using hlen, ?_⟩
  intro i hx hy
  simp [List.getElem?_zipWith, List.getElem?_eq_getElem hx, List.getElem?_eq_getElem hy]

/-- C2: when `ptsy` is at least as long as `ptsx`, the waypoint loop returns
two vectors of the length of `ptsx`, and entry `i` is waypoint `i` translated by
`-(px, py)` and rotated by `-psi`:
`waypts_x[i] = (ptsx[i]-px) cos(psi) + (ptsy[i]-py) sin(psi)`,
`waypts_y[i] = -(ptsx[i]-px) sin(psi) + (ptsy[i]-py) cos(psi)`. -/
theorem wayptsLoop_local_frame (px py psi : ℝ) (ptsx ptsy : List ℝ)
    (hlen : ptsx.length ≤ ptsy.length) :
    ∃ waypts_x waypts_y : List ℝ,
      wayptsLoop ⟨Real.cos, Real.sin, Real.arctan, Real.pi⟩ ptsx ptsy px py psi
        0 [] [] = some (waypts_x, waypts_y) ∧
      waypts_x.length = ptsx.length ∧ waypts_y.length = ptsx.length ∧
      ∀ (i : Nat) (hx : i < ptsx.length) (hy : i < ptsy.length),
        waypts_x[i]? = some ((ptsx[i] - px) * Real.cos psi
                              + (ptsy[i] - py) * Real.sin psi) ∧
        waypts_y[i]? = some (-(ptsx[i] - px) * Real.sin psi
                              + (ptsy[i] - py) * Real.cos psi) := by
  obtain ⟨wx, wy, hrun, h1, h2, hidx⟩ :=
    wayptsLoop_index ⟨Real.cos, Real.sin, Real.arctan, Real.pi⟩ ptsx ptsy px py psi hlen
  refine ⟨wx, wy, hrun, h1, h2, ?_⟩
  intro i hx hy
  obtain ⟨hwx, hwy⟩ := hidx i hx hy
  rw [hwx, hwy]
  simp only [Real.cos_neg, Real.sin_neg]
  constructor
  · congr 1
    ring
  · congr 1
    ring

/-- Witness for C2: pose `(1, 2, 0)`, two waypoints, `ptsy` one entry longer. -/
theorem wayptsLoop_local_frame_witness :
    ∃ waypts_x waypts_y : List ℝ,
      wayptsLoop ⟨Real.cos, Real.sin, Real.arctan, Real.pi⟩ [1, 2] [2, 3, 4] 1 2 0
        0 [] [] = some (waypts_x, waypts_y) ∧
      waypts_x.length = [(1 : ℝ), 2].length ∧
      waypts_y.length = [(1 : ℝ), 2].length ∧
      ∀ (i : Nat) (hx : i < [(1 : ℝ), 2].length) (hy : i < [(2 : ℝ), 3, 4].length),
        waypts_x[i]? = some (([(1 : ℝ), 2][i] - 1) * Real.cos 0
                              + ([(2 : ℝ), 3, 4][i] - 2) * Real.sin 0) ∧
        waypts_y[i]? = some (-([(1 : ℝ), 2][i] - 1) * Real.sin 0
                              + ([(2 : ℝ), 3, 4][i] - 2) * Real.cos 0) :=
  wayptsLoop_local_frame 1 2 0 [1, 2] [2, 3, 4] (by decide)

/-- C9: the transform puts the vehicle at the origin with heading zero.  A
waypoint equal to the vehicle position `(px, py)` maps to `(0, 0)`, and a
waypoint at distance `d` straight ahead, `(px + d cos(psi), py + d sin(psi))`,
maps to `(d, 0)`. -/
theorem wayptsLoop_vehicle_at_origin (px py psi : ℝ) (ptsx ptsy : List ℝ)
    (hlen : ptsx.length ≤ ptsy.length) (i : Nat) (hx : i < ptsx.length)
    (hy : i < ptsy.length) :
    ∃ waypts_x waypts_y : List ℝ,
      wayptsLoop ⟨Real.cos, Real.sin, Real.arctan, Real.pi⟩ ptsx ptsy px py psi
        0 [] [] = some (waypts_x, waypts_y) ∧
      (ptsx[i] = px → ptsy[i] = py →
        waypts_x[i]? = some 0 ∧ waypts_y[i]? = some 0) ∧
      (∀ d : ℝ, ptsx[i] = px + d * Real.cos psi → ptsy[i] = py + d * Real.sin psi →
        waypts_x[i]? = some d ∧ waypts_y[i]? = some 0) := by
  obtain ⟨wx, wy, hrun, -, -, hidx⟩ :=
    wayptsLoop_index ⟨Real.cos, Real.sin, Real.arctan, Real.pi⟩ ptsx ptsy px py psi hlen
  obtain ⟨hwx, hwy⟩ := hidx i hx hy
  refine ⟨wx, wy, hrun, ?_, ?_⟩
  · intro ex ey
    rw [hwx, hwy, ex, ey]
    simp
  · intro d ex ey
    rw [hwx, hwy, ex, ey]
    simp only [Real.cos_neg, Real.sin_neg]
    have hcs := Real.cos_sq_add_sin_sq psi
    constructor
    · congr 1
      calc (px + d * Real.cos psi - px) * Real.cos psi
              - (py + d * Real.sin psi - py) * -Real.sin psi
            = d * (Real.cos psi ^ 2 + Real.sin psi ^ 2) := by ring
        _ = d := by rw [hcs, mul_one]
    · congr 1
      ring

/-- Witness for C9: pose `(1, 2, 0)`; waypoint 0 is the vehicle position and
waypoint 1 lies 5 ahead of it. -/
theorem wayptsLoop_vehicle_at_origin_witness :
    ∃ waypts_x waypts_y : List ℝ,
      wayptsLoop ⟨Real.cos, Real.sin, Real.arctan, Real.pi⟩ [1, 6] [2, 2] 1 2 0
        0 [] [] = some (waypts_x, waypts_y) ∧
      (([(1 : ℝ), 6])[1] = 1 → ([(2 : ℝ), 2])[1] = 2 →
        waypts_x[1]? = some 0 ∧ waypts_y[1]? = some 0) ∧
      (∀ d : ℝ, ([(1 : ℝ), 6])[1] = 1 + d * Real.cos 0 →
        ([(2 : ℝ), 2])[1] = 2 + d * Real.sin 0 →
        waypts_x[1]? = some d ∧ waypts_y[1]? = some 0) :=
  wayptsLoop_vehicle_at_origin 1 2 0 [1, 6] [2, 2] (by decide) 1 (by decide) (by decide)

/-! ## Emitted command: theorems -/

/-- Closed form of the command pair for a vector with at least two entries. -/
theorem steerThrottle_eq {α : Type} [Field α] (m : CMath α) (solution : List α)
    (h : 2 ≤ solution.length) :
    steerThrottle m solution = some (solution[0] / deg2rad m 25, solution[1]) := by
  have h0 : 0 < solution.length := by omega
  have h1 : 1 < solution.length := by omega
  simp [steerThrottle, List.getElem?_eq_getElem h0, List.getElem?_eq_getElem h1]

/-- Closed form of `respond` for a vector with at least two entries. -/
theorem respond_eq {α : Type} [LinearOrderedField α] [FloorRing α] (m : CMath α)
    (polyeval : List α → α → α) (coeffs solution : List α)
    (h : 2 ≤ solution.length) :
    respond m polyeval coeffs solution
      = some { steering_angle := solution[0] / deg2rad m 25
               throttle := solution[1]
               mpc_x := (mpcValsLoop solution 2 [] []).1
               mpc_y := (mpcValsLoop solution 2 [] []).2
               next_x := (nextValsLoop polyeval coeffs 0 [] []).1
               next_y := (nextValsLoop polyeval coeffs 0 [] []).2 } := by
  simp [respond, steerThrottle_eq m solution h]

/-- Over the reals `deg2rad(25)` is `25 * pi / 180`, a positive number below 1. -/
theorem deg2rad_25_bounds :
    deg2rad ⟨Real.cos, Real.sin, Real.arctan, Real.pi⟩ 25 = 25 * Real.pi / 180 ∧
    0 < deg2rad ⟨Real.cos, Real.sin, Real.arctan, Real.pi⟩ 25 ∧
    deg2rad ⟨Real.cos, Real.sin, Real.arctan, Real.pi⟩ 25 < 1 := by
  have hpos := Real.pi_pos
  have hle := Real.pi_le_four
  refine ⟨rfl, ?_, ?_⟩
  · show 0 < 25 * Real.pi / 180
    positivity
  · show 25 * Real.pi / 180 < 1
    linarith

/-- A quotient by a positive bound lies in `[-1, 1]` exactly when the numerator
lies within the bound. -/
theorem div_mem_unit_iff (a b : ℝ) (hb : 0 < b) :
    (-1 ≤ a / b ∧ a / b ≤ 1) ↔ (-b ≤ a ∧ a ≤ b) := by
  rw [le_div_iff₀ hb, div_le_iff₀ hb]
  constructor
  · rintro ⟨h1, h2⟩
    exact ⟨by linarith, by linarith⟩
  · rintro ⟨h1, h2⟩
    exact ⟨by linarith, by linarith⟩

/-- C3: for a solver vector with at least two entries the emitted
`steering_angle` is `solution[0] / deg2rad(25)` with `deg2rad(25) = 25 pi / 180`
and the emitted `throttle` is `solution[1]`; when `solution[0]` lies in
`[-deg2rad(25), deg2rad(25)]` the emitted steering lies in `[-1, 1]`; and a
second vector with the same first two entries gives the same two commands. -/
theorem respond_command (polyeval : List ℝ → ℝ → ℝ) (coeffs solution : List ℝ)
    (h : 2 ≤ solution.length) :
    ∃ msg : Message ℝ,
      respond ⟨Real.cos, Real.sin, Real.arctan, Real.pi⟩ polyeval coeffs solution
        = some msg ∧
      msg.steering_angle = solution[0] / (25 * Real.pi / 180) ∧
      msg.throttle = solution[1] ∧
      (-(25 * Real.pi / 180) ≤ solution[0] → solution[0] ≤ 25 * Real.pi / 180 →
        -1 ≤ msg.steering_angle ∧ msg.steering_angle ≤ 1) ∧
      ∀ (solution2 : List ℝ) (h2 : 2 ≤ solution2.length),
        solution2[0] = solution[0] → solution2[1] = solution[1] →
        ∃ msg2 : Message ℝ,
          respond ⟨Real.cos, Real.sin, Real.arctan, Real.pi⟩ polyeval coeffs solution2
            = some msg2 ∧
          msg2.steering_angle = msg.steering_angle ∧ msg2.throttle = msg.throttle := by
  obtain ⟨hdeg, hpos, -⟩ := deg2rad_25_bounds
  rw [hdeg] at hpos
  refine ⟨_, respond_eq _ polyeval coeffs solution h, rfl, rfl, ?_, ?_⟩
  · intro hl hu
    exact (div_mem_unit_iff _ _ hpos).mpr ⟨hl, hu⟩
  · intro solution2 h2 e0 e1
    refine ⟨_, respond_eq _ polyeval coeffs solution2 h2, ?_, ?_⟩
    · simp only [e0]
    · exact e1

/-- Witness for C3: the vector `[0.2, 0.5, 1, 2]`. -/
theorem respond_command_witness :
    ∃ msg : Message ℝ,
      respond ⟨Real.cos, Real.sin, Real.arctan, Real.pi⟩ (fun _ _ => 0) [0, 0, 0, 0]
        [0.2, 0.5, 1, 2] = some msg ∧
      msg.steering_angle = ([(0.2 : ℝ), 0.5, 1, 2])[0] / (25 * Real.pi / 180) ∧
      msg.throttle = ([(0.2 : ℝ), 0.5, 1, 2])[1] ∧
      (-(25 * Real.pi / 180) ≤ ([(0.2 : ℝ), 0.5, 1, 2])[0] →
        ([(0.2 : ℝ), 0.5, 1, 2])[0] ≤ 25 * Real.pi / 180 →
        -1 ≤ msg.steering_angle ∧ msg.steering_angle ≤ 1) ∧
      ∀ (solution2 : List ℝ) (h2 : 2 ≤ solution2.length),
        solution2[0] = ([(0.2 : ℝ), 0.5, 1, 2])[0] →
        solution2[1] = ([(0.2 : ℝ), 0.5, 1, 2])[1] →
        ∃ msg2 : Message ℝ,
          respond ⟨Real.cos, Real.sin, Real.arctan, Real.pi⟩ (fun _ _ => 0)
            [0, 0, 0, 0] solution2 = some msg2 ∧
          msg2.steering_angle = msg.steering_angle ∧ msg2.throttle = msg.throttle :=
  respond_command (fun _ _ => 0) [0, 0, 0, 0] [0.2, 0.5, 1, 2] (by decide)

/-! ## Predicted trajectory: theorems -/

/-- Invariant of the extraction loop.  If at counter `i` the x vector holds
`solution[2], solution[4], ...` and the y vector `solution[3], solution[5],
...` as far as the entries below `i` go, then so do the two vectors the loop
returns, as far as the whole of `solution` goes. -/
theorem mpcValsLoop_inv {α : Type} (solution : List α) :
    ∀ (d i : Nat) (xs ys : List α), solution.length - i = d → 2 ≤ i →
      i ≤ solution.length →
      (xs.length = (i - 1) / 2 ∧ ys.length = (i - 2) / 2 ∧
        (∀ k, k < xs.length → xs[k]? = solution[2 + 2 * k]?) ∧
        (∀ k, k < ys.length → ys[k]? = solution[3 + 2 * k]?)) →
      ((mpcValsLoop solution i xs ys).1.length = (solution.length - 1) / 2 ∧
        (mpcValsLoop solution i xs ys).2.length = (solution.length - 2) / 2 ∧
        (∀ k, k < (mpcValsLoop solution i xs ys).1.length →
          (mpcValsLoop solution i xs ys).1[k]? = solution[2 + 2 * k]?) ∧
        (∀ k, k < (mpcValsLoop solution i xs ys).2.length →
          (mpcValsLoop solution i xs ys).2[k]? = solution[3 + 2 * k]?)) := by
  intro d
  induction d with
  | zero =>
    intro i xs ys hd h2 hi hinv
    have hi2 : i = solution.length := by omega
    rw [mpcValsLoop]
    simp only [hi2, lt_irrefl, dite_false]
    rw [hi2] at hinv
    exact hinv
  | succ d ih =>
    intro i xs ys hd h2 hi hinv
    have hlt : i < solution.length := by omega
    obtain ⟨hx, hy, hxs, hys⟩ := hinv
    rw [mpcValsLoop]
    simp only [hlt, dite_true]
    by_cases hpar : i % 2 = 0
    · simp only [hpar, if_true]
      apply ih (i + 1) _ _ (by omega) (by omega) (by omega)
      refine ⟨?_, ?_, ?_, ?_⟩
      · simp only [List.length_append, List.length_singleton, hx]
        omega
      · rw [hy]
        omega
      · intro k hk
        simp only [List.length_append, List.length_singleton] at hk
        by_cases hk2 : k < xs.length
        · rw [List.getElem?_append_left hk2]
          exact hxs k hk2
        · have hke : k = xs.length := by omega
          have hidx : 2 + 2 * k = i := by omega
          rw [hke, List.getElem?_append_right (le_refl _)]
          rw [← hke, hidx, List.getElem?_eq_getElem hlt]
          simp
      · exact hys
    · simp only [hpar, if_false]
      apply ih (i + 1) _ _ (by omega) (by omega) (by omega)
      refine ⟨?_, ?_, ?_, ?_⟩
      · rw [hx]
        omega
      · simp only [List.length_append, List.length_singleton, hy]
        omega
      · exact hxs
      · intro k hk
        simp only [List.length_append, List.length_singleton] at hk
        by_cases hk2 : k < ys.length
        · rw [List.getElem?_append_left hk2]
          exact hys k hk2
        · have hke : k = ys.length := by omega
          have hidx : 3 + 2 * k = i := by omega
          rw [hke, List.getElem?_append_right (le_refl _)]
          rw [← hke, hidx, List.getElem?_eq_getElem hlt]
          simp

/-- C6: for a solution vector of length `n ≥ 2` the extraction loop yields
`mpc_x_vals[k] = solution[2+2k]` and `mpc_y_vals[k] = solution[3+2k]` for every
`k` in range; `mpc_x_vals` has `ceil((n-2)/2)` entries and `mpc_y_vals` has
`floor((n-2)/2)`; the lengths are equal when `n` is even and `mpc_x_vals` is one
longer when `n` is odd. -/
theorem mpcValsLoop_pairs (solution : List ℝ) (h : 2 ≤ solution.length) :
    ∃ mpc_x_vals mpc_y_vals : List ℝ,
      mpcValsLoop solution 2 [] [] = (mpc_x_vals, mpc_y_vals) ∧
      mpc_x_vals.length = (solution.length - 2 + 1) / 2 ∧
      mpc_y_vals.length = (solution.length - 2) / 2 ∧
      (∀ k, k < mpc_x_vals.length →
        2 + 2 * k < solution.length ∧ mpc_x_vals[k]? = solution[2 + 2 * k]?) ∧
      (∀ k, k < mpc_y_vals.length →
        3 + 2 * k < solution.length ∧ mpc_y_vals[k]? = solution[3 + 2 * k]?) ∧
      (solution.length % 2 = 0 → mpc_x_vals.length = mpc_y_vals.length) ∧
      (solution.length % 2 = 1 → mpc_x_vals.length = mpc_y_vals.length + 1) := by
  have hinit : ([] : List ℝ).length = (2 - 1) / 2 ∧ ([] : List ℝ).length = (2 - 2) / 2 ∧
      (∀ k, k < ([] : List ℝ).length → ([] : List ℝ)[k]? = solution[2 + 2 * k]?) ∧
      (∀ k, k < ([] : List ℝ).length → ([] : List ℝ)[k]? = solution[3 + 2 * k]?) := by
    refine ⟨rfl, rfl, ?_, ?_⟩ <;> intro k hk <;> simp at hk
  obtain ⟨hx, hy, hxs, hys⟩ :=
    mpcValsLoop_inv solution _ 2 [] [] rfl (le_refl _) h hinit
  refine ⟨_, _, rfl, ?_, hy, ?_, ?_, ?_, ?_⟩
  · rw [hx]
    omega
  · intro k hk
    exact ⟨by omega, hxs k hk⟩
  · intro k hk
    exact ⟨by omega, hys k hk⟩
  · intro hpar
    rw [hx, hy]
    omega
  · intro hpar
    rw [hx, hy]
    omega

/-- Witness for C6: a vector of seven entries. -/
theorem mpcValsLoop_pairs_witness :
    ∃ mpc_x_vals mpc_y_vals : List ℝ,
      mpcValsLoop [(10 : ℝ), 11, 12, 13, 14, 15, 16] 2 [] [] = (mpc_x_vals, mpc_y_vals) ∧
      mpc_x_vals.length = ([(10 : ℝ), 11, 12, 13, 14, 15, 16].length - 2 + 1) / 2 ∧
      mpc_y_vals.length = ([(10 : ℝ), 11, 12, 13, 14, 15, 16].length - 2) / 2 ∧
      (∀ k, k < mpc_x_vals.length →
        2 + 2 * k < [(10 : ℝ), 11, 12, 13, 14, 15, 16].length ∧
        mpc_x_vals[k]? = [(10 : ℝ), 11, 12, 13, 14, 15, 16][2 + 2 * k]?) ∧
      (∀ k, k < mpc_y_vals.length →
        3 + 2 * k < [(10 : ℝ), 11, 12, 13, 14, 15, 16].length ∧
        mpc_y_vals[k]? = [(10 : ℝ), 11, 12, 13, 14, 15, 16][3 + 2 * k]?) ∧
      ([(10 : ℝ), 11, 12, 13, 14, 15, 16].length % 2 = 0 →
        mpc_x_vals.length = mpc_y_vals.length) ∧
      ([(10 : ℝ), 11, 12, 13, 14, 15, 16].length % 2 = 1 →
        mpc_x_vals.length = mpc_y_vals.length + 1) :=
  mpcValsLoop_pairs [10, 11, 12, 13, 14, 15, 16] (by decide)

/-! ## Reference line: theorems -/

/-- After `k ≤ 40` passes the sampling loop has counter `2k` and has appended
the first `k` samples. -/
theorem nextValsLoop_upto {α : Type} [LinearOrderedField α] [FloorRing α]
    (polyeval : List α → α → α) (coeffs : List α) :
    ∀ k : Nat, k ≤ 40 →
      nextValsLoop polyeval coeffs 0 [] []
        = nextValsLoop polyeval coeffs (2 * (k : α))
            ((List.range k).map (fun j : Nat => 2 * (j : α)))
            ((List.range k).map (fun j : Nat => polyeval coeffs (2 * (j : α)))) := by
  intro k
  induction k with
  | zero => intro _; simp
  | succ k ih =>
    intro hk
    rw [ih (by omega)]
    have hlt : (2 * (k : α)) < 80 := by
      have : (k : α) < 40 := by exact_mod_cast (by omega : k < 40)
      linarith
    conv_lhs => rw [nextValsLoop]
    simp only [hlt, if_true]
    have hstep : 2 * (k : α) + 2 = 2 * ((k + 1 : Nat) : α) := by
      push_cast
      ring
    rw [hstep, List.range_succ, List.map_append, List.map_append]
    simp

/-- Closed form of the sampling loop: 40 samples at `0, 2, ..., 78`. -/
theorem nextValsLoop_eq {α : Type} [LinearOrderedField α] [FloorRing α]
    (polyeval : List α → α → α) (coeffs : List α) :
    nextValsLoop polyeval coeffs 0 [] []
      = ((List.range 40).map (fun j : Nat => 2 * (j : α)),
         (List.range 40).map (fun j : Nat => polyeval coeffs (2 * (j : α)))) := by
  rw [nextValsLoop_upto polyeval coeffs 40 (le_refl _), nextValsLoop]
  have hnot : ¬ ((2 : α) * ((40 : Nat) : α) < 80) := by
    push_cast
    norm_num
  simp only [hnot, if_false]

/-- C7: for every coefficient vector the sampling loop returns (it is a total
function) exactly 40 samples at the fixed interval 2: `next_x_vals[k] = 2k` for
`k = 0..39`, so 80 is not among them, `next_y_vals[k] = polyeval(coeffs, 2k)`,
and the two vectors have the same length. -/
theorem nextValsLoop_samples (polyeval : List ℝ → ℝ → ℝ) (coeffs : List ℝ) :
    ∃ next_x_vals next_y_vals : List ℝ,
      nextValsLoop polyeval coeffs 0 [] [] = (next_x_vals, next_y_vals) ∧
      next_x_vals.length = 40 ∧ next_y_vals.length = 40 ∧
      (∀ k : Nat, k < 40 →
        next_x_vals[k]? = some (2 * (k : ℝ)) ∧
        next_y_vals[k]? = some (polyeval coeffs (2 * (k : ℝ)))) ∧
      (80 : ℝ) ∉ next_x_vals := by
  refine ⟨_, _, nextValsLoop_eq polyeval coeffs, by simp, by simp, ?_, ?_⟩
  · intro k hk
    simp [List.getElem?_map, List.getElem?_range hk]
  · simp only [List.mem_map, List.mem_range, not_exists, not_and]
    intro j hj heq
    have : (j : ℝ) < 40 := by exact_mod_cast hj
    linarith

/-! ## The telemetry branch: theorems -/

/-- The handler is `respond` applied to the solver's vector, once the waypoint
loop and the latency compensation have returned. -/
theorem onTelemetry_eq {α : Type} [LinearOrderedField α] [FloorRing α]
    (m : CMath α) (c : Collab α) (t : Telemetry α) (wx wy : List α) (state : State α)
    (hw : wayptsLoop m t.ptsx t.ptsy t.px t.py t.psi 0 [] [] = some (wx, wy))
    (hs : latencyState m c.Lf c.polyeval t.v t.steering_angle t.throttle
            (c.polyfit wx wy 3) = some state) :
    onTelemetry m c t
      = respond m c.polyeval (c.polyfit wx wy 3)
          (c.Solve state.toList (c.polyfit wx wy 3)) := by
  simp [onTelemetry, hw, hs]

/-- At speed zero the state handed to `mpc.Solve` does not depend on the
previous steering angle. -/
theorem latencyState_speed_zero {α : Type} [Field α] (m : CMath α) (Lf : α)
    (polyeval : List α → α → α) (sa sa2 throttle : α) (coeffs : List α) :
    latencyState m Lf polyeval 0 sa throttle coeffs
      = latencyState m Lf polyeval 0 sa2 throttle coeffs := by
  simp [latencyState]

/-- C4 (counterexample): for the solver vector `[1, 0]`, a steering of 1 rad
beyond the 25 degree bound, the emitted `steering_angle` is `1 / deg2rad(25)`,
which is above 1, so it does not lie in `[-1, 1]`. -/
theorem respond_steering_out_of_range :
    ∃ msg : Message ℝ,
      respond ⟨Real.cos, Real.sin, Real.arctan, Real.pi⟩ (fun _ _ => 0) [0, 0, 0, 0]
        [1, 0] = some msg ∧
      msg.steering_angle = 1 / (25 * Real.pi / 180) ∧
      ¬ (-1 ≤ msg.steering_angle ∧ msg.steering_angle ≤ 1) := by
  obtain ⟨hdeg, hpos, hlt⟩ := deg2rad_25_bounds
  rw [hdeg] at hpos hlt
  refine ⟨_, respond_eq _ _ _ [1, 0] (by decide), rfl, ?_⟩
  show ¬ (-1 ≤ (1 : ℝ) / (25 * Real.pi / 180) ∧ (1 : ℝ) / (25 * Real.pi / 180) ≤ 1)
  rw [div_mem_unit_iff _ _ hpos]
  rintro ⟨-, h⟩
  linarith

/-- C4 (amended): for every solver vector with at least two entries the handler
emits it without validation, `steering_angle = solution[0] / deg2rad(25)` and
`throttle = solution[1]`, and the emitted `steering_angle` lies in `[-1, 1]` if
and only if `solution[0]` lies in `[-deg2rad(25), deg2rad(25)]`. -/
theorem respond_steering_in_unit_iff (polyeval : List ℝ → ℝ → ℝ)
    (coeffs solution : List ℝ) (h : 2 ≤ solution.length) :
    ∃ msg : Message ℝ,
      respond ⟨Real.cos, Real.sin, Real.arctan, Real.pi⟩ polyeval coeffs solution
        = some msg ∧
      msg.steering_angle
        = solution[0] / deg2rad ⟨Real.cos, Real.sin, Real.arctan, Real.pi⟩ 25 ∧
      msg.throttle = solution[1] ∧
      ((-1 ≤ msg.steering_angle ∧ msg.steering_angle ≤ 1) ↔
        (-deg2rad ⟨Real.cos, Real.sin, Real.arctan, Real.pi⟩ 25 ≤ solution[0] ∧
          solution[0] ≤ deg2rad ⟨Real.cos, Real.sin, Real.arctan, Real.pi⟩ 25)) := by
  obtain ⟨-, hpos, -⟩ := deg2rad_25_bounds
  exact ⟨_, respond_eq _ polyeval coeffs solution h, rfl, rfl,
    div_mem_unit_iff _ _ hpos⟩

/-- Witness for C4 (amended): the vector `[0.2, 0.5, 1, 2]`. -/
theorem respond_steering_in_unit_iff_witness :
    ∃ msg : Message ℝ,
      respond ⟨Real.cos, Real.sin, Real.arctan, Real.pi⟩ (fun _ _ => 0) [0, 0, 0, 0]
        [0.2, 0.5, 1, 2] = some msg ∧
      msg.steering_angle
        = ([(0.2 : ℝ), 0.5, 1, 2])[0]
            / deg2rad ⟨Real.cos, Real.sin, Real.arctan, Real.pi⟩ 25 ∧
      msg.throttle = ([(0.2 : ℝ), 0.5, 1, 2])[1] ∧
      ((-1 ≤ msg.steering_angle ∧ msg.steering_angle ≤ 1) ↔
        (-deg2rad ⟨Real.cos, Real.sin, Real.arctan, Real.pi⟩ 25
            ≤ ([(0.2 : ℝ), 0.5, 1, 2])[0] ∧
          ([(0.2 : ℝ), 0.5, 1, 2])[0]
            ≤ deg2rad ⟨Real.cos, Real.sin, Real.arctan, Real.pi⟩ 25)) :=
  respond_steering_in_unit_iff (fun _ _ => 0) [0, 0, 0, 0] [0.2, 0.5, 1, 2] (by decide)

/-- C5 (counterexample): take two telemetry events with empty waypoint lists,
speed 0 and previous throttle 0, the first with previous `steering_angle = 0`,
the second with `0.25`.  Whatever `Lf`, `polyfit`, `polyeval` and `Solve` are,
the handler cannot emit the previous command for both: it hands the same state
and coefficients to the solver in both. -/
theorem onTelemetry_not_previous_command :
    ¬ ∃ c : Collab ℝ,
      (∃ msg : Message ℝ,
        onTelemetry ⟨Real.cos, Real.sin, Real.arctan, Real.pi⟩ c
          ⟨[], [], 0, 0, 0, 0, 0, 0⟩ = some msg ∧
        msg.steering_angle = 0 ∧ msg.throttle = 0) ∧
      (∃ msg : Message ℝ,
        onTelemetry ⟨Real.cos, Real.sin, Real.arctan, Real.pi⟩ c
          ⟨[], [], 0, 0, 0, 0, 0.25, 0⟩ = some msg ∧
        msg.steering_angle = 0.25 ∧ msg.throttle = 0) := by
  rintro ⟨c, ⟨m1, h1, hs1, -⟩, ⟨m2, h2, hs2, -⟩⟩
  have hsame :
      onTelemetry ⟨Real.cos, Real.sin, Real.arctan, Real.pi⟩ c
          ⟨[], [], 0, 0, 0, 0, 0, 0⟩
        = onTelemetry ⟨Real.cos, Real.sin, Real.arctan, Real.pi⟩ c
          ⟨[], [], 0, 0, 0, 0, 0.25, 0⟩ := by
    have key : ∀ cs : List ℝ,
        latencyState ⟨Real.cos, Real.sin, Real.arctan, Real.pi⟩ c.Lf c.polyeval 0 0 0 cs
          = latencyState ⟨Real.cos, Real.sin, Real.arctan, Real.pi⟩ c.Lf c.polyeval
              0 0.25 0 cs :=
      fun cs => latencyState_speed_zero _ c.Lf c.polyeval 0 0.25 0 cs
    simp only [onTelemetry, key]
  rw [hsame, h2] at h1
  have hm : m2 = m1 := Option.some.inj h1
  rw [hm, hs1] at hs2
  norm_num at hs2

/-- C5 (amended): a telemetry event with fewer than 2 waypoints takes the same
path as any other.  The (fewer than 2) transformed waypoints are fitted, the
state is latency-compensated, the solver is called, and the emitted command is
the solver's output, `steering_angle = solution[0] / deg2rad(25)` and
`throttle = solution[1]`, provided `polyfit` returns at least two coefficients
and `Solve` at least two entries. -/
theorem onTelemetry_few_waypoints (c : Collab ℝ) (t : Telemetry ℝ)
    (hfew : t.ptsx.length < 2) (hlen : t.ptsx.length ≤ t.ptsy.length)
    (hfit : ∀ xs ys : List ℝ, 2 ≤ (c.polyfit xs ys 3).length)
    (hsol : ∀ s cs : List ℝ, 2 ≤ (c.Solve s cs).length) :
    ∃ (waypts_x waypts_y : List ℝ) (state : State ℝ) (s0 s1 : ℝ) (msg : Message ℝ),
      wayptsLoop ⟨Real.cos, Real.sin, Real.arctan, Real.pi⟩ t.ptsx t.ptsy t.px t.py
        t.psi 0 [] [] = some (waypts_x, waypts_y) ∧
      waypts_x.length < 2 ∧ waypts_y.length = waypts_x.length ∧
      latencyState ⟨Real.cos, Real.sin, Real.arctan, Real.pi⟩ c.Lf c.polyeval t.v
        t.steering_angle t.throttle (c.polyfit waypts_x waypts_y 3) = some state ∧
      (c.Solve state.toList (c.polyfit waypts_x waypts_y 3))[0]? = some s0 ∧
      (c.Solve state.toList (c.polyfit waypts_x waypts_y 3))[1]? = some s1 ∧
      onTelemetry ⟨Real.cos, Real.sin, Real.arctan, Real.pi⟩ c t = some msg ∧
      msg.steering_angle
        = s0 / deg2rad ⟨Real.cos, Real.sin, Real.arctan, Real.pi⟩ 25 ∧
      msg.throttle = s1 := by
  obtain ⟨wx, wy, hrun, h1, h2, -⟩ :=
    wayptsLoop_index ⟨Real.cos, Real.sin, Real.arctan, Real.pi⟩ t.ptsx t.ptsy
      t.px t.py t.psi hlen
  have hc : 1 < (c.polyfit wx wy 3).length := hfit wx wy
  have hstate := latencyState_eq ⟨Real.cos, Real.sin, Real.arctan, Real.pi⟩ c.Lf
    c.polyeval t.v t.steering_angle t.throttle (c.polyfit wx wy 3) hc
  generalize hst : (⟨_, _, _, _, _, _⟩ : State ℝ) = state at hstate
  have hs2 := hsol state.toList (c.polyfit wx wy 3)
  have hmsg := (onTelemetry_eq _ c t wx wy state hrun hstate).trans
    (respond_eq _ c.polyeval _ _ hs2)
  exact ⟨wx, wy, state, _, _, _, hrun, by omega, by omega, hstate,
    List.getElem?_eq_getElem (by omega),
    List.getElem?_eq_getElem (by omega), hmsg, rfl, rfl⟩

/-- Witness for C5 (amended): one waypoint `(1, 2)`, speed 10, previous command
`(0.05, 0.2)`, a fit returning `[0, 0, 0, 0]` and a solver returning
`[0.1, 0.3]`. -/
theorem onTelemetry_few_waypoints_witness :
    ∃ (waypts_x waypts_y : List ℝ) (state : State ℝ) (s0 s1 : ℝ) (msg : Message ℝ),
      wayptsLoop ⟨Real.cos, Real.sin, Real.arctan, Real.pi⟩ [1] [2] 0 0
        0 0 [] [] = some (waypts_x, waypts_y) ∧
      waypts_x.length < 2 ∧ waypts_y.length = waypts_x.length ∧
      latencyState ⟨Real.cos, Real.sin, Real.arctan, Real.pi⟩ 2.67 (fun _ _ => 0) 10
        0.05 0.2 [0, 0, 0, 0] = some state ∧
      ([(0.1 : ℝ), 0.3])[0]? = some s0 ∧
      ([(0.1 : ℝ), 0.3])[1]? = some s1 ∧
      onTelemetry ⟨Real.cos, Real.sin, Real.arctan, Real.pi⟩
        ⟨2.67, fun _ _ _ => [0, 0, 0, 0], fun _ _ => 0, fun _ _ => [0.1, 0.3]⟩
        ⟨[1], [2], 0, 0, 0, 10, 0.05, 0.2⟩ = some msg ∧
      msg.steering_angle
        = s0 / deg2rad ⟨Real.cos, Real.sin, Real.arctan, Real.pi⟩ 25 ∧
      msg.throttle = s1 :=
  onTelemetry_few_waypoints
    ⟨2.67, fun _ _ _ => [0, 0, 0, 0], fun _ _ => 0, fun _ _ => [0.1, 0.3]⟩
    ⟨[1], [2], 0, 0, 0, 10, 0.05, 0.2⟩ (by decide) (by decide)
    (fun _ _ => Nat.le_add_left 2 2) (fun _ _ => Nat.le_refl 2)

end CarND
